import Mathlib

/-!
Formal model of the comment versioning / threading subsystem
(`createComment`, `updateComment`, `deleteComment`, `getCommentHistory`,
`getComments` of the comment service).

Rows of the `COMMENTS` table are modelled as `Row`; the database state is a
list of rows together with the next identity value and a logical clock that
stands in for `SYSTIMESTAMP` (one tick per service call).  Each SQL statement
of the source is translated as one list transformation, in the source's
statement order; transactions are atomic here because the translated
statements cannot fail, and every service-level throw happens before the
first mutating statement, so an error leaves the state unchanged (the
source's rollback).
-/

namespace JaceComments

/-- One row of the `COMMENTS` table, fields as selected by the service. -/
structure Row where
  id : Nat
  parentHeaderId : Option Nat
  content : Option String
  createdAt : Nat
  updatedAt : Nat
  isEdited : Nat
  isDeleted : Nat
  version : Nat
  editedCommentId : Option Nat
  headerId : Option Nat
  tailId : Option Nat
  hashedUserIP : String
  hashedPassword : String
  deriving Repr, DecidableEq

/-- Database state: table contents, next `IDENTITY` value, logical clock. -/
structure DB where
  rows : List Row
  nextId : Nat
  clock : Nat
  deriving Repr, DecidableEq

/-- The empty table; Oracle identity columns start at 1. -/
def DB.empty : DB := { rows := [], nextId := 1, clock := 0 }

/-- The distinct errors thrown by the service layer, one per message string:
`'존재하지 않는 댓글입니다'` (NotFound), `'해시된 비밀번호가 존재하지 않습니다'`,
`'이미 삭제된 댓글은 수정/삭제할 수 없습니다'` (InvalidState: tombstone),
`'이미 수정된 댓글은 다시 수정/삭제할 수 없습니다'` (InvalidState: superseded),
`'비밀번호가 일치하지 않아 ...'` (Unauthorized). -/
inductive DbError where
  | notFound
  | noHashedPassword
  | alreadyDeleted
  | alreadyEdited
  | passwordMismatch
  deriving Repr, DecidableEq

/-- Modelled from the spec: `hashSecret` of the Identity Hasher
(`passwordUtils.hashPassword`, not under the provided sources) is a salted
one-way password hash with an application-wide pepper; it is modelled as an
injective function whose output is never the empty string, which is all the
comment service relies on. -/
def hashPassword (pw : String) : String := String.mk ('b' :: pw.data)

/-- Modelled from the spec: `verifySecret` (`passwordUtils.comparePassword`)
returns true exactly when the stored hash is the hash of the supplied
password, and false on mismatch. -/
def comparePassword (pw : String) (hash : String) : Bool :=
  hash == hashPassword pw

/-- SQL equality on nullable columns: `a = b` is satisfied only when both
sides are non-NULL and equal (`NULL = x` is not true). -/
def sqlEqOpt (a b : Option Nat) : Bool :=
  match a, b with
  | some x, some y => x == y
  | _, _ => false

/-- JavaScript `v || null` on a nullable numeric id: `0` is falsy. -/
def jsOrNull (v : Option Nat) : Option Nat :=
  match v with
  | some 0 => none
  | v => v

/-- JavaScript `v || 1` on a numeric version: `0` is falsy. -/
def jsOrOne (v : Nat) : Nat := if v == 0 then 1 else v

/-- `SELECT ... FROM COMMENTS WHERE ID = :id` (first matching row). -/
def DB.findRow (db : DB) (i : Nat) : Option Row :=
  db.rows.find? (fun r => r.id == i)

/-- The row inserted by `createComment`: `VERSION = 1`, flags 0, and
`HEADER_ID`/`TAIL_ID` initially NULL. -/
def createNewRow (content userPassword hashedUserIP : String)
    (parentHeaderId : Option Nat) (db : DB) : Row :=
  { id := db.nextId
    parentHeaderId := jsOrNull parentHeaderId
    content := some content
    createdAt := db.clock
    updatedAt := db.clock
    isEdited := 0
    isDeleted := 0
    version := 1
    editedCommentId := none
    headerId := none
    tailId := none
    hashedUserIP := hashedUserIP
    hashedPassword := hashPassword userPassword }

/-- `UPDATE COMMENTS SET HEADER_ID = :newId, TAIL_ID = :newId WHERE ID =
:newId` of `createComment`, applied to one row. -/
def selfLink (newId : Nat) (r : Row) : Row :=
  if r.id == newId then { r with headerId := some newId, tailId := some newId } else r

/-- `createComment`: insert one row with `VERSION = 1` and NULL
`HEADER_ID`/`TAIL_ID`, then `UPDATE ... SET HEADER_ID = :newId, TAIL_ID =
:newId WHERE ID = :newId`; commit; return the new id. -/
def createComment (content userPassword hashedUserIP : String)
    (parentHeaderId : Option Nat) (db : DB) : Except DbError Nat × DB :=
  let newId := db.nextId
  let rows1 := db.rows ++ [createNewRow content userPassword hashedUserIP parentHeaderId db]
  let rows2 := rows1.map (selfLink newId)
  (Except.ok newId, { rows := rows2, nextId := db.nextId + 1, clock := db.clock + 1 })

/-- The precondition sequence shared verbatim by `updateComment` and
`deleteComment` (steps 1 of both): fetch the target row, then throw on a
missing row, a falsy stored hash, `IS_DELETED ≠ 0`, a non-NULL
`EDITED_COMMENT_ID`, or a password mismatch, in that order. -/
def checkMutation (db : DB) (targetId : Nat) (userPassword : String) :
    Except DbError Row :=
  match db.findRow targetId with
  | none => Except.error DbError.notFound
  | some oldComment =>
    if oldComment.hashedPassword == "" then Except.error DbError.noHashedPassword
    else if oldComment.isDeleted != 0 then Except.error DbError.alreadyDeleted
    else if oldComment.editedCommentId != none then Except.error DbError.alreadyEdited
    else if !(comparePassword userPassword oldComment.hashedPassword) then
      Except.error DbError.passwordMismatch
    else Except.ok oldComment

/-- `UPDATE COMMENTS SET IS_EDITED = 1 WHERE ID = :targetId` (step 2 of both
`updateComment` and `deleteComment`), applied to one row. -/
def markEdited (targetId : Nat) (r : Row) : Row :=
  if r.id == targetId then { r with isEdited := 1 } else r

/-- `UPDATE COMMENTS SET TAIL_ID = :newId WHERE ID = :newId` (step 4 of both
mutating paths), applied to one row. -/
def setOwnTail (newId : Nat) (r : Row) : Row :=
  if r.id == newId then { r with tailId := some newId } else r

/-- `UPDATE COMMENTS SET EDITED_COMMENT_ID = :newId, TAIL_ID = :newId,
UPDATED_AT = SYSTIMESTAMP WHERE ID = :originalId` (step 5 of
`updateComment`), applied to one row. -/
def relinkOld (originalId newId t : Nat) (r : Row) : Row :=
  if r.id == originalId then
    { r with editedCommentId := some newId, tailId := some newId, updatedAt := t }
  else r

/-- `UPDATE COMMENTS SET TAIL_ID = :newId, UPDATED_AT = SYSTIMESTAMP WHERE
HEADER_ID = :headerId` (step 6 of `updateComment`), applied to one row. -/
def broadcastUpd (headerId : Option Nat) (newId t : Nat) (r : Row) : Row :=
  if sqlEqOpt r.headerId headerId then { r with tailId := some newId, updatedAt := t } else r

/-- `UPDATE COMMENTS SET TAIL_ID = :newId WHERE HEADER_ID = :headerId` (step
5 of `deleteComment`; note: no `UPDATED_AT`, no `EDITED_COMMENT_ID`), applied
to one row. -/
def broadcastDel (headerId : Option Nat) (newId : Nat) (r : Row) : Row :=
  if sqlEqOpt r.headerId headerId then { r with tailId := some newId } else r

/-- The row inserted by step 3 of `updateComment`: the new version, carrying
forward `PARENT_HEADER_ID`, `HEADER_ID`, and the old `HASHED_PASSWORD`, with
`VERSION = (old.version || 1) + 1` and NULL `TAIL_ID`/`EDITED_COMMENT_ID`. -/
def updNewRow (oldComment : Row) (newContent hashedUserIP : String) (db : DB) : Row :=
  { id := db.nextId
    parentHeaderId := jsOrNull oldComment.parentHeaderId
    content := some newContent
    createdAt := db.clock
    updatedAt := db.clock
    isEdited := 0
    isDeleted := 0
    version := jsOrOne oldComment.version + 1
    editedCommentId := none
    headerId := oldComment.headerId
    tailId := none
    hashedUserIP := hashedUserIP
    hashedPassword := oldComment.hashedPassword }

/-- The mutating statements of `updateComment` after its checks pass, in
source order: (2) mark the target edited; (3) insert the new version row;
(4) set the new row's own `TAIL_ID`; (5) relink the target's
`EDITED_COMMENT_ID`/`TAIL_ID`/`UPDATED_AT`; (6) broadcast
`TAIL_ID`/`UPDATED_AT` over the whole `HEADER_ID` group. -/
def applyUpdate (oldComment : Row) (originalId : Nat)
    (newContent hashedUserIP : String) (db : DB) : DB :=
  let t := db.clock
  let newId := db.nextId
  let rows1 := db.rows.map (markEdited originalId)
  let rows2 := rows1 ++ [updNewRow oldComment newContent hashedUserIP db]
  let rows3 := rows2.map (setOwnTail newId)
  let rows4 := rows3.map (relinkOld originalId newId t)
  let rows5 := rows4.map (broadcastUpd oldComment.headerId newId t)
  { rows := rows5, nextId := db.nextId + 1, clock := db.clock + 1 }

/-- `updateComment`: run the checks; on failure roll back (state unchanged)
and rethrow; on success run the mutation statements and return the new id. -/
def updateComment (originalId : Nat) (newContent userPassword hashedUserIP : String)
    (db : DB) : Except DbError Nat × DB :=
  match checkMutation db originalId userPassword with
  | Except.error e => (Except.error e, db)
  | Except.ok oldComment =>
      (Except.ok db.nextId, applyUpdate oldComment originalId newContent hashedUserIP db)

/-- The tombstone row inserted by step 3 of `deleteComment`: `CONTENT =
NULL`, `IS_DELETED = 1`, `VERSION = (old.version || 1) + 1`, same
`HEADER_ID`, NULL `TAIL_ID`/`EDITED_COMMENT_ID`. -/
def delNewRow (oldComment : Row) (hashedUserIP : String) (db : DB) : Row :=
  { id := db.nextId
    parentHeaderId := jsOrNull oldComment.parentHeaderId
    content := none
    createdAt := db.clock
    updatedAt := db.clock
    isEdited := 0
    isDeleted := 1
    version := jsOrOne oldComment.version + 1
    editedCommentId := none
    headerId := oldComment.headerId
    tailId := none
    hashedUserIP := hashedUserIP
    hashedPassword := oldComment.hashedPassword }

/-- The mutating statements of `deleteComment` after its checks pass, in
source order: (2) `SET IS_EDITED = 1 WHERE ID = :commentId`; (3) insert the
tombstone row (`CONTENT = NULL`, `IS_DELETED = 1`); (4) `SET TAIL_ID = :newId
WHERE ID = :newId`; (5) `SET TAIL_ID = :newId WHERE HEADER_ID = :headerId`.
Unlike `applyUpdate`, no statement writes `EDITED_COMMENT_ID` or
`UPDATED_AT` on the pre-existing rows. -/
def applyDelete (oldComment : Row) (commentId : Nat)
    (hashedUserIP : String) (db : DB) : DB :=
  let newId := db.nextId
  let rows1 := db.rows.map (markEdited commentId)
  let rows2 := rows1 ++ [delNewRow oldComment hashedUserIP db]
  let rows3 := rows2.map (setOwnTail newId)
  let rows4 := rows3.map (broadcastDel oldComment.headerId newId)
  { rows := rows4, nextId := db.nextId + 1, clock := db.clock + 1 }

/-- `deleteComment`: identical checks to `updateComment`; on success insert a
tombstone version and repair tail pointers; return the tombstone id. -/
def deleteComment (commentId : Nat) (userPassword hashedUserIP : String)
    (db : DB) : Except DbError Nat × DB :=
  match checkMutation db commentId userPassword with
  | Except.error e => (Except.error e, db)
  | Except.ok oldComment =>
      (Except.ok db.nextId, applyDelete oldComment commentId hashedUserIP db)

/-- The order used by `ORDER BY VERSION ASC`. -/
def versionLe (a b : Row) : Prop := a.version ≤ b.version

instance : DecidableRel versionLe := fun a b => Nat.decLe a.version b.version

instance : IsTotal Row versionLe := ⟨fun a b => Nat.le_total a.version b.version⟩

instance : IsTrans Row versionLe := ⟨fun _ _ _ h h' => Nat.le_trans h h'⟩

/-- `getCommentHistory`: resolve the `HEADER_ID` of the given id (NotFound if
no row matches), then return all rows with that `HEADER_ID` and
`IS_DELETED = 0`, ordered by `VERSION` ascending. -/
def getCommentHistory (commentId : Nat) (db : DB) : Except DbError (List Row) :=
  match db.findRow commentId with
  | none => Except.error DbError.notFound
  | some row =>
      Except.ok (List.insertionSort versionLe
        (db.rows.filter (fun r => sqlEqOpt r.headerId row.headerId && r.isDeleted == 0)))

/-- The `WHERE` clause of the count and parent queries of `getComments`:
`PARENT_HEADER_ID IS NULL AND ID = TAIL_ID`. -/
def rootTail (r : Row) : Bool :=
  r.parentHeaderId == none && r.tailId == some r.id

/-- `JOIN COMMENTS p ON c.HEADER_ID = p.ID`: pair a row with its header row,
dropping it when the join finds no partner. -/
def joinHeader (db : DB) (c : Row) : Option (Row × Row) :=
  (db.rows.find? (fun p => c.headerId == some p.id)).map (fun p => (c, p))

/-- Result shape of `getComments`: parent rows each with their grouped child
rows, plus the total root-chain count. -/
structure PageResult where
  comments : List (Row × List Row)
  totalCount : Nat
  deriving Repr, DecidableEq

/-- Descending order on the joined header row's `CREATED_AT`. -/
def headerCreatedDesc (a b : Row × Row) : Prop := b.2.createdAt ≤ a.2.createdAt

instance : DecidableRel headerCreatedDesc :=
  fun a b => Nat.decLe b.2.createdAt a.2.createdAt

/-- Ascending order on the joined header row's `CREATED_AT`. -/
def headerCreatedAsc (a b : Row × Row) : Prop := a.2.createdAt ≤ b.2.createdAt

instance : DecidableRel headerCreatedAsc :=
  fun a b => Nat.decLe a.2.createdAt b.2.createdAt

/-- `getComments`: (1) count rows with `PARENT_HEADER_ID IS NULL AND ID =
TAIL_ID`; (2) fetch those rows joined with their header row, ordered by the
header's `CREATED_AT` descending, with `OFFSET (page-1)*limit FETCH NEXT
limit`; (3) collect the page's non-null `HEADER_ID`s; (4) if any, fetch tail
rows whose `PARENT_HEADER_ID` is among them, ordered by their header's
`CREATED_AT` ascending; (5)-(6) group children under each parent by
`PARENT_HEADER_ID = parent.HEADER_ID` (children with a NULL parent id are
skipped), a parent with no children receiving the empty list. -/
def getComments (page limit : Nat) (db : DB) : PageResult :=
  let totalCount := db.rows.countP rootTail
  let offset := (page - 1) * limit
  let joined := db.rows.filterMap (fun c => if rootTail c then joinHeader db c else none)
  let sorted := List.insertionSort headerCreatedDesc joined
  let parentRows := ((sorted.drop offset).take limit).map (fun x => x.1)
  let headerIds := parentRows.filterMap (fun r => r.headerId)
  let childrenRows :=
    if headerIds.length > 0 then
      let joinedC := db.rows.filterMap (fun c =>
        if (match c.parentHeaderId with
            | some h => headerIds.contains h
            | none => false) && c.tailId == some c.id then
          joinHeader db c
        else none)
      (List.insertionSort headerCreatedAsc joinedC).map (fun x => x.1)
    else []
  let comments := parentRows.map (fun par =>
    match par.headerId with
    | none => (par, [])
    | some b => (par, childrenRows.filter (fun ch => ch.parentHeaderId == some b)))
  { comments := comments, totalCount := totalCount }

/-- Highest `VERSION` present in chain `hd` (0 for an empty chain). -/
def maxVersion (db : DB) (hd : Nat) : Nat :=
  ((db.rows.filter (fun r => r.headerId == some hd)).map Row.version).foldr max 0

/-- "The chain has exactly one tombstone row as its terminal
(highest-version) version": exactly one `IS_DELETED = 1` row, and exactly
one tombstone row sitting at the chain's maximal version. -/
def tombTerminalUnique (db : DB) (hd : Nat) : Bool :=
  ((db.rows.filter (fun r => r.headerId == some hd && r.isDeleted == 1)).length == 1)
  && ((db.rows.filter (fun r =>
        r.headerId == some hd && r.isDeleted == 1
          && r.version == maxVersion db hd)).length == 1)

/-- Row ids targeted by the final `TAIL_ID` broadcast of `updateComment`
(`WHERE HEADER_ID = :headerId`, the target's header id). -/
def updateTailBroadcastScope (db : DB) (headerId : Option Nat) : List Nat :=
  (db.rows.filter (fun r => sqlEqOpt r.headerId headerId)).map Row.id

/-- Row ids targeted by the final `TAIL_ID` broadcast of `deleteComment`
(`WHERE HEADER_ID = :headerId`, the target's header id). -/
def deleteTailBroadcastScope (db : DB) (headerId : Option Nat) : List Nat :=
  (db.rows.filter (fun r => sqlEqOpt r.headerId headerId)).map Row.id

/-! Concrete scenario states used to test the specification's sentences. -/

/-- One root comment `"Hello"` with password `"pw"`. -/
def dbCr : DB := (createComment "Hello" "pw" "ipA" none DB.empty).2

/-- ... then the chain is tombstoned via `deleteComment 1`. -/
def dbDel : DB := (deleteComment 1 "pw" "ipB" dbCr).2

/-- ... then the already-tombstoned chain is edited again via
`updateComment 1` (accepted by the shipped code). -/
def dbPostDeleteEdit : DB := (updateComment 1 "Hello v2" "pw" "ipC" dbDel).2

/-- ... and the new live row is edited once more. -/
def dbChainBroken : DB := (updateComment 3 "Hello v3" "pw" "ipD" dbPostDeleteEdit).2

/-- Root comment `"Hello"` then a normal edit of it. -/
def dbCU : DB := (updateComment 1 "Hello v2" "pw" "ipB" dbCr).2

/-- Row 1 of `dbCU`: superseded by row 2. -/
def rowCU1 : Row :=
  { id := 1, parentHeaderId := none, content := some "Hello", createdAt := 0,
    updatedAt := 1, isEdited := 1, isDeleted := 0, version := 1,
    editedCommentId := some 2, headerId := some 1, tailId := some 2,
    hashedUserIP := "ipA", hashedPassword := hashPassword "pw" }

/-- Row 2 of `dbCU`: the live second version. -/
def rowCU2 : Row :=
  { id := 2, parentHeaderId := none, content := some "Hello v2", createdAt := 1,
    updatedAt := 1, isEdited := 0, isDeleted := 0, version := 2,
    editedCommentId := none, headerId := some 1, tailId := some 2,
    hashedUserIP := "ipB", hashedPassword := hashPassword "pw" }

/-- Root comment `"A"`. -/
def dbA : DB := (createComment "A" "pA" "ipA" none DB.empty).2

/-- ... edited once (rows 1 and 2 in chain 1). -/
def dbAB : DB := (updateComment 1 "A2" "pA" "ipA2" dbA).2

/-- ... plus an unrelated root comment `"B"` (row 3, chain 3). -/
def dbPair : DB := (createComment "B" "p2" "ipB" none dbAB).2

/-- Tombstone row 2 of `dbDel`. -/
def rowDel2 : Row :=
  { id := 2, parentHeaderId := none, content := none, createdAt := 1,
    updatedAt := 1, isEdited := 0, isDeleted := 1, version := 2,
    editedCommentId := none, headerId := some 1, tailId := some 2,
    hashedUserIP := "ipB", hashedPassword := hashPassword "pw" }

/-- Row 2 of `dbPair`: the live second version of chain 1. -/
def rowPair2 : Row :=
  { id := 2, parentHeaderId := none, content := some "A2", createdAt := 1,
    updatedAt := 1, isEdited := 0, isDeleted := 0, version := 2,
    editedCommentId := none, headerId := some 1, tailId := some 2,
    hashedUserIP := "ipA2", hashedPassword := hashPassword "pA" }

/-- `dbPair` after `updateComment` on the live row 2. -/
def dbPairUpd : DB := (updateComment 2 "A3" "pA" "ipU" dbPair).2

/-- `dbPair` after `deleteComment` on the live row 2. -/
def dbPairDel : DB := (deleteComment 2 "pA" "ipD" dbPair).2

/-- Five root chains (ids 1, 2, 3, 5, 6) and two reply chains (id 4 replying
to chain 1, id 7 replying to chain 2), in creation order. -/
def db9a : DB := (createComment "r1" "p" "ip" none DB.empty).2

def db9b : DB := (createComment "r2" "p" "ip" none db9a).2

def db9c : DB := (createComment "r3" "p" "ip" none db9b).2

def db9d : DB := (createComment "a1" "p" "ip" (some 1) db9c).2

def db9e : DB := (createComment "r4" "p" "ip" none db9d).2

def db9f : DB := (createComment "r5" "p" "ip" none db9e).2

def db9 : DB := (createComment "a2" "p" "ip" (some 2) db9f).2

/-- The state after `createComment c p hipA none` on the empty store. -/
def c8db1 (c p hipA : String) : DB := (createComment c p hipA none DB.empty).2

/-- The single row of `c8db1 c p hipA`. -/
def c8row1 (c p hipA : String) : Row :=
  { id := 1, parentHeaderId := none, content := some c, createdAt := 0,
    updatedAt := 0, isEdited := 0, isDeleted := 0, version := 1,
    editedCommentId := none, headerId := some 1, tailId := some 1,
    hashedUserIP := hipA, hashedPassword := hashPassword p }

/-! ### Basic lemmas about the embedded operations -/

theorem hashPassword_ne_empty (pw : String) : hashPassword pw ≠ "" := by
  intro h
  have hd := congrArg String.data h
  simp [hashPassword] at hd

theorem hashPassword_beq_empty (pw : String) : (hashPassword pw == "") = false := by
  simp [hashPassword_ne_empty pw]

theorem comparePassword_self (pw : String) :
    comparePassword pw (hashPassword pw) = true := by
  simp [comparePassword]

theorem findRow_mem {db : DB} {i : Nat} {r : Row} (h : db.findRow i = some r) :
    r ∈ db.rows ∧ r.id = i := by
  refine ⟨List.mem_of_find?_eq_some h, ?_⟩
  have := List.find?_some h
  simpa using this

theorem checkMutation_ok {db : DB} {tId : Nat} {pw : String} {old : Row}
    (h : checkMutation db tId pw = Except.ok old) :
    db.findRow tId = some old ∧ old.hashedPassword ≠ "" ∧
    old.isDeleted = 0 ∧ old.editedCommentId = none ∧
    comparePassword pw old.hashedPassword = true := by
  unfold checkMutation at h
  split at h
  · cases h
  · rename_i r hf
    split at h
    · cases h
    · split at h
      · cases h
      · split at h
        · cases h
        · split at h
          · cases h
          · cases h
            rename_i h1 h2 h3 h4
            refine ⟨hf, ?_, ?_, ?_, ?_⟩
            · simpa using h1
            · simpa using h2
            · simpa using h3
            · simpa using h4

theorem checkMutation_superseded {db : DB} {i : Nat} {r : Row} (pw : String)
    (hf : db.findRow i = some r) (hp : r.hashedPassword ≠ "")
    (hd : r.isDeleted = 0) (he : r.editedCommentId ≠ none) :
    checkMutation db i pw = Except.error DbError.alreadyEdited := by
  have h1 : (r.hashedPassword == "") = false := by simpa using hp
  have h2 : (r.isDeleted != 0) = false := by simp [hd]
  have h3 : (r.editedCommentId != none) = true := by simpa using he
  unfold checkMutation
  rw [hf]
  simp [h1, h2, h3]

/-! Record shape of each statement's row transformer. -/

theorem selfLink_eq (n : Nat) (r : Row) :
    selfLink n r = { r with
      headerId := if r.id == n then some n else r.headerId,
      tailId := if r.id == n then some n else r.tailId } := by
  unfold selfLink; split <;> simp_all

theorem markEdited_eq (i : Nat) (r : Row) :
    markEdited i r = { r with isEdited := if r.id == i then 1 else r.isEdited } := by
  unfold markEdited; split <;> simp_all

theorem setOwnTail_eq (n : Nat) (r : Row) :
    setOwnTail n r = { r with tailId := if r.id == n then some n else r.tailId } := by
  unfold setOwnTail; split <;> simp_all

theorem relinkOld_eq (i n t : Nat) (r : Row) :
    relinkOld i n t r = { r with
      editedCommentId := if r.id == i then some n else r.editedCommentId,
      tailId := if r.id == i then some n else r.tailId,
      updatedAt := if r.id == i then t else r.updatedAt } := by
  unfold relinkOld; split <;> simp_all

theorem broadcastUpd_eq (hd : Option Nat) (n t : Nat) (r : Row) :
    broadcastUpd hd n t r = { r with
      tailId := if sqlEqOpt r.headerId hd then some n else r.tailId,
      updatedAt := if sqlEqOpt r.headerId hd then t else r.updatedAt } := by
  unfold broadcastUpd; split <;> simp_all

theorem broadcastDel_eq (hd : Option Nat) (n : Nat) (r : Row) :
    broadcastDel hd n r = { r with
      tailId := if sqlEqOpt r.headerId hd then some n else r.tailId } := by
  unfold broadcastDel; split <;> simp_all

/-! Shape of the row list after each mutating operation. -/

/-- The compound per-row transformer that the four `UPDATE` statements of
`updateComment` apply to each pre-existing row. -/
def updRowFn (old : Row) (i n t : Nat) (r : Row) : Row :=
  broadcastUpd old.headerId n t (relinkOld i n t (setOwnTail n (markEdited i r)))

/-- The compound per-row transformer that the three `UPDATE` statements of
`deleteComment` apply to each pre-existing row. -/
def delRowFn (old : Row) (i n : Nat) (r : Row) : Row :=
  broadcastDel old.headerId n (setOwnTail n (markEdited i r))

theorem applyUpdate_rows (old : Row) (i : Nat) (c hip : String) (db : DB) :
    (applyUpdate old i c hip db).rows
      = db.rows.map (updRowFn old i db.nextId db.clock)
        ++ [broadcastUpd old.headerId db.nextId db.clock
            (relinkOld i db.nextId db.clock
              (setOwnTail db.nextId (updNewRow old c hip db)))] := by
  unfold applyUpdate updRowFn
  simp [List.map_append, List.map_map, Function.comp]

theorem applyDelete_rows (old : Row) (i : Nat) (hip : String) (db : DB) :
    (applyDelete old i hip db).rows
      = db.rows.map (delRowFn old i db.nextId)
        ++ [broadcastDel old.headerId db.nextId
            (setOwnTail db.nextId (delNewRow old hip db))] := by
  unfold applyDelete delRowFn
  simp [List.map_append, List.map_map, Function.comp]

theorem createComment_rows (c pw hip : String) (ph : Option Nat) (db : DB) :
    (createComment c pw hip ph db).2.rows
      = db.rows.map (selfLink db.nextId)
        ++ [selfLink db.nextId (createNewRow c pw hip ph db)] := by
  unfold createComment
  simp [List.map_append]

/-! Counting helpers. -/

theorem countP_map_eq_of_congr {α : Type} (p : α → Bool) (f : α → α) (l : List α)
    (h : ∀ a ∈ l, p (f a) = p a) : (l.map f).countP p = l.countP p := by
  induction l with
  | nil => rfl
  | cons a l ih =>
    simp only [List.map_cons, List.countP_cons, h a (by simp)]
    rw [ih (fun b hb => h b (by simp [hb]))]

theorem countP_map_balanced (p : Row → Bool) (f : Row → Row) (l : List Row)
    (old : Row) (hmem : old ∈ l) (hnd : (l.map Row.id).Nodup)
    (hf : ∀ r, r.id ≠ old.id → p (f r) = p r) :
    (l.map f).countP p + (if p old then 1 else 0)
      = l.countP p + (if p (f old) then 1 else 0) := by
  obtain ⟨l1, l2, rfl⟩ := List.append_of_mem hmem
  have hnd' := hnd
  simp only [List.map_append, List.map_cons, List.nodup_append, List.nodup_cons] at hnd'
  have h1 : ∀ r ∈ l1, r.id ≠ old.id := by
    intro r hr he
    exact hnd'.2.2 (List.mem_map_of_mem Row.id hr) (by simp [he])
  have h2 : ∀ r ∈ l2, r.id ≠ old.id := by
    intro r hr he
    exact hnd'.2.1.1 (by simpa [he] using List.mem_map_of_mem Row.id hr)
  have e1 : (l1.map f).countP p = l1.countP p :=
    countP_map_eq_of_congr p f l1 (fun a ha => hf a (h1 a ha))
  have e2 : (l2.map f).countP p = l2.countP p :=
    countP_map_eq_of_congr p f l2 (fun a ha => hf a (h2 a ha))
  simp only [List.map_append, List.map_cons, List.countP_append, List.countP_cons, e1, e2]
  omega

/-! Field-level behaviour of the compound transformers. -/

theorem updRowFn_id (old : Row) (i n t : Nat) (r : Row) :
    (updRowFn old i n t r).id = r.id := by
  simp [updRowFn, markEdited_eq, setOwnTail_eq, relinkOld_eq, broadcastUpd_eq]

theorem updRowFn_headerId (old : Row) (i n t : Nat) (r : Row) :
    (updRowFn old i n t r).headerId = r.headerId := by
  simp [updRowFn, markEdited_eq, setOwnTail_eq, relinkOld_eq, broadcastUpd_eq]

theorem updRowFn_isDeleted (old : Row) (i n t : Nat) (r : Row) :
    (updRowFn old i n t r).isDeleted = r.isDeleted := by
  simp [updRowFn, markEdited_eq, setOwnTail_eq, relinkOld_eq, broadcastUpd_eq]

theorem updRowFn_hashedPassword (old : Row) (i n t : Nat) (r : Row) :
    (updRowFn old i n t r).hashedPassword = r.hashedPassword := by
  simp [updRowFn, markEdited_eq, setOwnTail_eq, relinkOld_eq, broadcastUpd_eq]

theorem updRowFn_editedCommentId (old : Row) (i n t : Nat) (r : Row) :
    (updRowFn old i n t r).editedCommentId
      = if r.id == i then some n else r.editedCommentId := by
  simp [updRowFn, markEdited_eq, setOwnTail_eq, relinkOld_eq, broadcastUpd_eq]

theorem updRowFn_updatedAt (old : Row) (i n t : Nat) (r : Row) :
    (updRowFn old i n t r).updatedAt
      = if sqlEqOpt r.headerId old.headerId then t
        else if r.id == i then t else r.updatedAt := by
  simp [updRowFn, markEdited_eq, setOwnTail_eq, relinkOld_eq, broadcastUpd_eq]

theorem updRowFn_tailId (old : Row) (i n t : Nat) (r : Row) :
    (updRowFn old i n t r).tailId
      = if sqlEqOpt r.headerId old.headerId then some n
        else if r.id == i then some n
        else if r.id == n then some n else r.tailId := by
  simp [updRowFn, markEdited_eq, setOwnTail_eq, relinkOld_eq, broadcastUpd_eq]

theorem updRowFn_version (old : Row) (i n t : Nat) (r : Row) :
    (updRowFn old i n t r).version = r.version := by
  simp [updRowFn, markEdited_eq, setOwnTail_eq, relinkOld_eq, broadcastUpd_eq]

theorem delRowFn_id (old : Row) (i n : Nat) (r : Row) :
    (delRowFn old i n r).id = r.id := by
  simp [delRowFn, markEdited_eq, setOwnTail_eq, broadcastDel_eq]

theorem delRowFn_headerId (old : Row) (i n : Nat) (r : Row) :
    (delRowFn old i n r).headerId = r.headerId := by
  simp [delRowFn, markEdited_eq, setOwnTail_eq, broadcastDel_eq]

theorem delRowFn_isDeleted (old : Row) (i n : Nat) (r : Row) :
    (delRowFn old i n r).isDeleted = r.isDeleted := by
  simp [delRowFn, markEdited_eq, setOwnTail_eq, broadcastDel_eq]

theorem delRowFn_hashedPassword (old : Row) (i n : Nat) (r : Row) :
    (delRowFn old i n r).hashedPassword = r.hashedPassword := by
  simp [delRowFn, markEdited_eq, setOwnTail_eq, broadcastDel_eq]

theorem delRowFn_editedCommentId (old : Row) (i n : Nat) (r : Row) :
    (delRowFn old i n r).editedCommentId = r.editedCommentId := by
  simp [delRowFn, markEdited_eq, setOwnTail_eq, broadcastDel_eq]

theorem delRowFn_updatedAt (old : Row) (i n : Nat) (r : Row) :
    (delRowFn old i n r).updatedAt = r.updatedAt := by
  simp [delRowFn, markEdited_eq, setOwnTail_eq, broadcastDel_eq]

theorem delRowFn_version (old : Row) (i n : Nat) (r : Row) :
    (delRowFn old i n r).version = r.version := by
  simp [delRowFn, markEdited_eq, setOwnTail_eq, broadcastDel_eq]

theorem jsOrOne_of_pos {v : Nat} (h : 1 ≤ v) : jsOrOne v = v := by
  unfold jsOrOne
  rw [if_neg]
  simp only [beq_iff_eq]
  omega

theorem delRowFn_tailId (old : Row) (i n : Nat) (r : Row) :
    (delRowFn old i n r).tailId
      = if sqlEqOpt r.headerId old.headerId then some n
        else if r.id == n then some n else r.tailId := by
  simp [delRowFn, markEdited_eq, setOwnTail_eq, broadcastDel_eq]

/-- Final form of the freshly inserted row of `updateComment` after steps
4-6, assuming the fresh id differs from the target's id. -/
theorem updNew_final (old : Row) (c hip : String) (db : DB)
    (hne : old.id ≠ db.nextId) :
    broadcastUpd old.headerId db.nextId db.clock
        (relinkOld old.id db.nextId db.clock
          (setOwnTail db.nextId (updNewRow old c hip db)))
      = { updNewRow old c hip db with tailId := some db.nextId } := by
  have h1 : (db.nextId == old.id) = false := by simp [Ne.symm hne]
  simp [setOwnTail_eq, relinkOld_eq, broadcastUpd_eq, updNewRow, h1]

/-- Final form of the tombstone row of `deleteComment` after steps 4-5. -/
theorem delNew_final (old : Row) (hip : String) (db : DB) :
    broadcastDel old.headerId db.nextId (setOwnTail db.nextId (delNewRow old hip db))
      = { delNewRow old hip db with tailId := some db.nextId } := by
  simp [setOwnTail_eq, broadcastDel_eq, delNewRow]

/-- Final form of the freshly inserted row of `createComment` after the
self-linking statement. -/
theorem createNew_final (c pw hip : String) (ph : Option Nat) (db : DB) :
    selfLink db.nextId (createNewRow c pw hip ph db)
      = { createNewRow c pw hip ph db with
          headerId := some db.nextId, tailId := some db.nextId } := by
  simp [selfLink_eq, createNewRow]

/-! ### Per-chain counting and the state invariant -/

/-- Membership of a row in the chain of header `h`:
`HEADER_ID = h` (SQL equality, so a NULL `HEADER_ID` is in no chain). -/
def chainPred (h : Nat) (r : Row) : Bool := r.headerId == some h

/-- Number of rows of chain `h`. -/
def chainLen (db : DB) (h : Nat) : Nat := db.rows.countP (chainPred h)

/-- Number of rows of chain `h` with `EDITED_COMMENT_ID` NULL ("live" rows). -/
def chainNone (db : DB) (h : Nat) : Nat :=
  db.rows.countP (fun r => chainPred h r && r.editedCommentId == none)

/-- Number of tombstone rows (`IS_DELETED = 1`) of chain `h`. -/
def chainTomb (db : DB) (h : Nat) : Nat :=
  db.rows.countP (fun r => chainPred h r && r.isDeleted == 1)

/-- Number of rows of chain `hd` carrying `VERSION = v`. -/
def chainVer (db : DB) (hd v : Nat) : Nat :=
  db.rows.countP (fun r => chainPred hd r && r.version == v)

/-- State invariant maintained by the comment service across committed
transactions. -/
structure Inv (db : DB) : Prop where
  ids_lt : ∀ r ∈ db.rows, r.id < db.nextId
  ids_nodup : (db.rows.map Row.id).Nodup
  header_some : ∀ r ∈ db.rows, ∃ h, r.headerId = some h ∧ h < db.nextId
  hp_ne : ∀ r ∈ db.rows, r.hashedPassword ≠ ""
  ec_live : ∀ r ∈ db.rows, r.editedCommentId ≠ none → r.isDeleted = 0
  counts : ∀ h, 0 < chainLen db h → chainNone db h = chainTomb db h + 1
  ver_pos : ∀ r ∈ db.rows, 1 ≤ r.version
  ver_pred : ∀ r ∈ db.rows, 1 < r.version →
    0 < db.rows.countP (fun x =>
      x.headerId == r.headerId && x.version == r.version - 1)

/-- States reachable from the empty table by any sequence of sequential,
committed `createComment` / `updateComment` / `deleteComment` calls (a failed
call leaves the state unchanged, so only successful calls matter). -/
inductive Reachable : DB → Prop where
  | init : Reachable DB.empty
  | create (db db' : DB) (c pw hip : String) (ph : Option Nat) (n : Nat) :
      Reachable db → createComment c pw hip ph db = (Except.ok n, db') → Reachable db'
  | update (db db' : DB) (i : Nat) (c pw hip : String) (n : Nat) :
      Reachable db → updateComment i c pw hip db = (Except.ok n, db') → Reachable db'
  | delete (db db' : DB) (i : Nat) (pw hip : String) (n : Nat) :
      Reachable db → deleteComment i pw hip db = (Except.ok n, db') → Reachable db'

/-- Id bookkeeping shared by the three mutating operations: appending one
fresh-id row and mapping an id-preserving function keeps ids below the bumped
identity counter and pairwise distinct. -/
theorem snoc_ids (db : DB) (g : Row → Row) (nr : Row)
    (hg : ∀ r, (g r).id = r.id) (hnr : nr.id = db.nextId)
    (hlt : ∀ r ∈ db.rows, r.id < db.nextId)
    (hnd : (db.rows.map Row.id).Nodup) :
    (∀ r ∈ db.rows.map g ++ [nr], r.id < db.nextId + 1)
    ∧ ((db.rows.map g ++ [nr]).map Row.id).Nodup := by
  have hmap : (db.rows.map g).map Row.id = db.rows.map Row.id := by
    rw [List.map_map]; exact List.map_congr_left (fun a _ => hg a)
  constructor
  · intro r hr
    rcases List.mem_append.1 hr with h | h
    · obtain ⟨s, hs, rfl⟩ := List.mem_map.1 h
      have := hlt s hs; rw [hg]; omega
    · simp only [List.mem_singleton] at h; subst h; omega
  · rw [List.map_append, hmap]
    refine List.Nodup.append hnd ?_ ?_
    · simp [hnr]
    · intro x hx hx'
      simp only [List.map_cons, List.map_nil, List.mem_singleton, hnr] at hx'
      subst hx'
      obtain ⟨s, hs, he⟩ := List.mem_map.1 hx
      have := hlt s hs
      omega

theorem countP_append_single (p : Row → Bool) (l : List Row) (a : Row) :
    (l ++ [a]).countP p = l.countP p + (if p a then 1 else 0) := by
  simp [List.countP_append, List.countP_cons]

theorem inv_createComment (c pw hip : String) (ph : Option Nat) {db : DB}
    (inv : Inv db) : Inv (createComment c pw hip ph db).2 := by
  have hfix : ∀ r ∈ db.rows, selfLink db.nextId r = r := by
    intro r hr
    unfold selfLink
    rw [if_neg]
    simp only [beq_iff_eq]
    exact Nat.ne_of_lt (inv.ids_lt r hr)
  have hmapid : db.rows.map (selfLink db.nextId) = db.rows := by
    calc db.rows.map (selfLink db.nextId) = db.rows.map id :=
          List.map_congr_left (fun a ha => hfix a ha)
      _ = db.rows := List.map_id db.rows
  have hrows : (createComment c pw hip ph db).2.rows
      = db.rows ++ [{ createNewRow c pw hip ph db with
          headerId := some db.nextId, tailId := some db.nextId }] := by
    rw [createComment_rows, createNew_final, hmapid]
  have hnext : (createComment c pw hip ph db).2.nextId = db.nextId + 1 := rfl
  have hchain0 : ∀ h, db.nextId = h → chainLen db h = 0 := by
    intro h hh
    subst hh
    unfold chainLen
    rw [List.countP_eq_zero]
    intro r hr
    obtain ⟨h', e, lt⟩ := inv.header_some r hr
    simp [chainPred, e]
    omega
  refine ⟨?_, ?_, ?_, ?_, ?_, ?_, ?_, ?_⟩
  · intro r hr
    rw [hrows] at hr
    rw [hnext]
    rcases List.mem_append.1 hr with h | h
    · have := inv.ids_lt r h; omega
    · simp only [List.mem_singleton] at h
      subst h
      simp [createNewRow]
  · rw [hrows]
    have h2 := (snoc_ids db id
      ({ createNewRow c pw hip ph db with
         headerId := some db.nextId, tailId := some db.nextId })
      (fun _ => rfl) rfl inv.ids_lt inv.ids_nodup).2
    simpa using h2
  · intro r hr
    rw [hrows] at hr
    rw [hnext]
    rcases List.mem_append.1 hr with h | h
    · obtain ⟨h', e, lt⟩ := inv.header_some r h
      exact ⟨h', e, by omega⟩
    · simp only [List.mem_singleton] at h
      subst h
      exact ⟨db.nextId, by simp [createNewRow], by omega⟩
  · intro r hr
    rw [hrows] at hr
    rcases List.mem_append.1 hr with h | h
    · exact inv.hp_ne r h
    · simp only [List.mem_singleton] at h
      subst h
      simp [createNewRow]
      exact hashPassword_ne_empty pw
  · intro r hr
    rw [hrows] at hr
    rcases List.mem_append.1 hr with h | h
    · exact inv.ec_live r h
    · simp only [List.mem_singleton] at h
      subst h
      simp [createNewRow]
  · intro h hpos
    have hlen : chainLen (createComment c pw hip ph db).2 h
        = chainLen db h + (if db.nextId = h then 1 else 0) := by
      unfold chainLen
      rw [hrows, countP_append_single]
      simp [chainPred, createNewRow]
    have hnone : chainNone (createComment c pw hip ph db).2 h
        = chainNone db h + (if db.nextId = h then 1 else 0) := by
      unfold chainNone
      rw [hrows, countP_append_single]
      simp [chainPred, createNewRow]
    have htomb : chainTomb (createComment c pw hip ph db).2 h
        = chainTomb db h := by
      unfold chainTomb
      rw [hrows, countP_append_single]
      simp [chainPred, createNewRow]
    by_cases hc : db.nextId = h
    · have hl0 : chainLen db h = 0 := hchain0 h hc
      have hn0 : chainNone db h = 0 := by
        unfold chainLen at hl0
        unfold chainNone
        rw [List.countP_eq_zero] at hl0 ⊢
        intro r hr
        simp only [Bool.and_eq_true, not_and]
        intro hcp
        exact absurd hcp (hl0 r hr)
      have ht0 : chainTomb db h = 0 := by
        unfold chainLen at hl0
        unfold chainTomb
        rw [List.countP_eq_zero] at hl0 ⊢
        intro r hr
        simp only [Bool.and_eq_true, not_and]
        intro hcp
        exact absurd hcp (hl0 r hr)
      rw [hnone, htomb, hn0, ht0, if_pos hc]
    · rw [hnone, htomb, if_neg hc, Nat.add_zero]
      apply inv.counts
      rw [hlen, if_neg hc, Nat.add_zero] at hpos
      exact hpos
  · intro r hr
    rw [hrows] at hr
    rcases List.mem_append.1 hr with h | h
    · exact inv.ver_pos r h
    · simp only [List.mem_singleton] at h
      subst h
      simp [createNewRow]
  · intro r hr hv
    rw [hrows] at hr
    rw [hrows, countP_append_single]
    rcases List.mem_append.1 hr with h | h
    · have := inv.ver_pred r h hv
      omega
    · simp only [List.mem_singleton] at h
      subst h
      simp [createNewRow] at hv

theorem inv_applyUpdate (c hip : String) {db : DB} {old : Row}
    (inv : Inv db) (hmem : old ∈ db.rows)
    (hdel : old.isDeleted = 0) (hec : old.editedCommentId = none) :
    Inv (applyUpdate old old.id c hip db) := by
  obtain ⟨h0, hh0, hh0lt⟩ := inv.header_some old hmem
  have hoidlt : old.id < db.nextId := inv.ids_lt old hmem
  have hne : old.id ≠ db.nextId := Nat.ne_of_lt hoidlt
  have hrows : (applyUpdate old old.id c hip db).rows
      = db.rows.map (updRowFn old old.id db.nextId db.clock)
        ++ [{ updNewRow old c hip db with tailId := some db.nextId }] := by
    rw [applyUpdate_rows, updNew_final _ _ _ _ hne]
  have hnext : (applyUpdate old old.id c hip db).nextId = db.nextId + 1 := rfl
  have hlen : ∀ h, chainLen (applyUpdate old old.id c hip db) h
      = chainLen db h + (if h0 = h then 1 else 0) := by
    intro h
    unfold chainLen
    rw [hrows, countP_append_single]
    rw [countP_map_eq_of_congr _ _ _
      (fun a _ => by simp [chainPred, updRowFn_headerId])]
    simp [chainPred, updNewRow, hh0]
  have htomb : ∀ h, chainTomb (applyUpdate old old.id c hip db) h
      = chainTomb db h := by
    intro h
    unfold chainTomb
    rw [hrows, countP_append_single]
    rw [countP_map_eq_of_congr _ _ _
      (fun a _ => by simp [chainPred, updRowFn_headerId, updRowFn_isDeleted])]
    simp [chainPred, updNewRow]
  have hnone : ∀ h, chainNone (applyUpdate old old.id c hip db) h
      = chainNone db h := by
    intro h
    unfold chainNone
    rw [hrows, countP_append_single]
    have hb := countP_map_balanced
      (fun r => chainPred h r && r.editedCommentId == none)
      (updRowFn old old.id db.nextId db.clock) db.rows old hmem inv.ids_nodup
      (fun r hrne => by
        have hf : (r.id == old.id) = false := by simpa using hrne
        simp [chainPred, updRowFn_headerId, updRowFn_editedCommentId, hf])
    simp only [chainPred, updRowFn_headerId, updRowFn_editedCommentId, hh0, hec,
      updNewRow] at hb ⊢
    by_cases hc : h0 = h
    · subst hc
      simp at hb ⊢
      omega
    · simp [hc] at hb ⊢
      omega
  refine ⟨?_, ?_, ?_, ?_, ?_, ?_, ?_, ?_⟩
  · intro r hr
    rw [hrows] at hr
    rw [hnext]
    rcases List.mem_append.1 hr with h | h
    · obtain ⟨s, hs, rfl⟩ := List.mem_map.1 h
      rw [updRowFn_id]
      have := inv.ids_lt s hs
      omega
    · simp only [List.mem_singleton] at h
      subst h
      simp [updNewRow]
  · rw [hrows]
    exact (snoc_ids db (updRowFn old old.id db.nextId db.clock)
      ({ updNewRow old c hip db with tailId := some db.nextId })
      (updRowFn_id old old.id db.nextId db.clock) rfl
      inv.ids_lt inv.ids_nodup).2
  · intro r hr
    rw [hrows] at hr
    rw [hnext]
    rcases List.mem_append.1 hr with h | h
    · obtain ⟨s, hs, rfl⟩ := List.mem_map.1 h
      rw [updRowFn_headerId]
      obtain ⟨h', e, lt⟩ := inv.header_some s hs
      exact ⟨h', e, by omega⟩
    · simp only [List.mem_singleton] at h
      subst h
      refine ⟨h0, ?_, by omega⟩
      simp [updNewRow, hh0]
  · intro r hr
    rw [hrows] at hr
    rcases List.mem_append.1 hr with h | h
    · obtain ⟨s, hs, rfl⟩ := List.mem_map.1 h
      rw [updRowFn_hashedPassword]
      exact inv.hp_ne s hs
    · simp only [List.mem_singleton] at h
      subst h
      have := inv.hp_ne old hmem
      simpa [updNewRow] using this
  · intro r hr
    rw [hrows] at hr
    rcases List.mem_append.1 hr with h | h
    · obtain ⟨s, hs, rfl⟩ := List.mem_map.1 h
      intro hne'
      rw [updRowFn_isDeleted]
      by_cases hsid : (s.id == old.id) = true
      · have hseq : s = old :=
          List.inj_on_of_nodup_map inv.ids_nodup hs hmem (by simpa using hsid)
        subst hseq
        exact hdel
      · have hEC : (updRowFn old old.id db.nextId db.clock s).editedCommentId
            = s.editedCommentId := by
          rw [updRowFn_editedCommentId, if_neg hsid]
        rw [hEC] at hne'
        exact inv.ec_live s hs hne'
    · simp only [List.mem_singleton] at h
      subst h
      intro _
      simp [updNewRow]
  · intro h hpos
    rw [hnone, htomb]
    apply inv.counts
    by_cases hc : h0 = h
    · subst hc
      unfold chainLen
      exact List.countP_pos_iff.2 ⟨old, hmem, by simp [chainPred, hh0]⟩
    · rw [hlen, if_neg hc, Nat.add_zero] at hpos
      exact hpos
  · intro r hr
    rw [hrows] at hr
    rcases List.mem_append.1 hr with h | h
    · obtain ⟨s, hs, rfl⟩ := List.mem_map.1 h
      rw [updRowFn_version]
      exact inv.ver_pos s hs
    · simp only [List.mem_singleton] at h
      subst h
      have hv : ({ updNewRow old c hip db with tailId := some db.nextId }).version
          = jsOrOne old.version + 1 := rfl
      rw [hv]
      omega
  · intro r' hr' hv
    rw [hrows] at hr'
    rw [hrows, countP_append_single]
    rcases List.mem_append.1 hr' with h | h
    · obtain ⟨s, hs, rfl⟩ := List.mem_map.1 h
      rw [updRowFn_version] at hv
      simp only [updRowFn_headerId, updRowFn_version]
      have hcongr : (db.rows.map (updRowFn old old.id db.nextId db.clock)).countP
          (fun x => x.headerId == s.headerId && x.version == s.version - 1)
          = db.rows.countP (fun x => x.headerId == s.headerId && x.version == s.version - 1) :=
        countP_map_eq_of_congr _ _ _ (fun a _ => by
          simp [updRowFn_headerId, updRowFn_version])
      rw [hcongr]
      have := inv.ver_pred s hs hv
      omega
    · simp only [List.mem_singleton] at h
      subst h
      have hvpos := inv.ver_pos old hmem
      have hver : ({ updNewRow old c hip db with tailId := some db.nextId }).version
          = old.version + 1 := by
        simp [updNewRow, jsOrOne_of_pos hvpos]
      have hhd2 : ({ updNewRow old c hip db with tailId := some db.nextId }).headerId
          = old.headerId := rfl
      rw [hver, hhd2]
      have hmem' : updRowFn old old.id db.nextId db.clock old
          ∈ db.rows.map (updRowFn old old.id db.nextId db.clock) :=
        List.mem_map_of_mem _ hmem
      have hpr : ((updRowFn old old.id db.nextId db.clock old).headerId == old.headerId
          && ((updRowFn old old.id db.nextId db.clock old).version == old.version + 1 - 1))
          = true := by
        simp [updRowFn_headerId, updRowFn_version]
      have hposm : 0 < (db.rows.map (updRowFn old old.id db.nextId db.clock)).countP
          (fun x => x.headerId == old.headerId && x.version == old.version + 1 - 1) :=
        List.countP_pos_iff.2 ⟨_, hmem', hpr⟩
      omega

theorem inv_applyDelete (hip : String) {db : DB} {old : Row}
    (inv : Inv db) (hmem : old ∈ db.rows)
    (hdel : old.isDeleted = 0) (hec : old.editedCommentId = none) :
    Inv (applyDelete old old.id hip db) := by
  obtain ⟨h0, hh0, hh0lt⟩ := inv.header_some old hmem
  have hrows : (applyDelete old old.id hip db).rows
      = db.rows.map (delRowFn old old.id db.nextId)
        ++ [{ delNewRow old hip db with tailId := some db.nextId }] := by
    rw [applyDelete_rows, delNew_final]
  have hnext : (applyDelete old old.id hip db).nextId = db.nextId + 1 := rfl
  have hlen : ∀ h, chainLen (applyDelete old old.id hip db) h
      = chainLen db h + (if h0 = h then 1 else 0) := by
    intro h
    unfold chainLen
    rw [hrows, countP_append_single]
    rw [countP_map_eq_of_congr _ _ _
      (fun a _ => by simp [chainPred, delRowFn_headerId])]
    simp [chainPred, delNewRow, hh0]
  have hnone : ∀ h, chainNone (applyDelete old old.id hip db) h
      = chainNone db h + (if h0 = h then 1 else 0) := by
    intro h
    unfold chainNone
    rw [hrows, countP_append_single]
    rw [countP_map_eq_of_congr _ _ _
      (fun a _ => by simp [chainPred, delRowFn_headerId, delRowFn_editedCommentId])]
    simp [chainPred, delNewRow, hh0]
  have htomb : ∀ h, chainTomb (applyDelete old old.id hip db) h
      = chainTomb db h + (if h0 = h then 1 else 0) := by
    intro h
    unfold chainTomb
    rw [hrows, countP_append_single]
    rw [countP_map_eq_of_congr _ _ _
      (fun a _ => by simp [chainPred, delRowFn_headerId, delRowFn_isDeleted])]
    simp [chainPred, delNewRow, hh0]
  refine ⟨?_, ?_, ?_, ?_, ?_, ?_, ?_, ?_⟩
  · intro r hr
    rw [hrows] at hr
    rw [hnext]
    rcases List.mem_append.1 hr with h | h
    · obtain ⟨s, hs, rfl⟩ := List.mem_map.1 h
      rw [delRowFn_id]
      have := inv.ids_lt s hs
      omega
    · simp only [List.mem_singleton] at h
      subst h
      simp [delNewRow]
  · rw [hrows]
    exact (snoc_ids db (delRowFn old old.id db.nextId)
      ({ delNewRow old hip db with tailId := some db.nextId })
      (delRowFn_id old old.id db.nextId) rfl
      inv.ids_lt inv.ids_nodup).2
  · intro r hr
    rw [hrows] at hr
    rw [hnext]
    rcases List.mem_append.1 hr with h | h
    · obtain ⟨s, hs, rfl⟩ := List.mem_map.1 h
      rw [delRowFn_headerId]
      obtain ⟨h', e, lt⟩ := inv.header_some s hs
      exact ⟨h', e, by omega⟩
    · simp only [List.mem_singleton] at h
      subst h
      refine ⟨h0, ?_, by omega⟩
      simp [delNewRow, hh0]
  · intro r hr
    rw [hrows] at hr
    rcases List.mem_append.1 hr with h | h
    · obtain ⟨s, hs, rfl⟩ := List.mem_map.1 h
      rw [delRowFn_hashedPassword]
      exact inv.hp_ne s hs
    · simp only [List.mem_singleton] at h
      subst h
      have := inv.hp_ne old hmem
      simpa [delNewRow] using this
  · intro r hr
    rw [hrows] at hr
    rcases List.mem_append.1 hr with h | h
    · obtain ⟨s, hs, rfl⟩ := List.mem_map.1 h
      intro hne'
      rw [delRowFn_isDeleted]
      rw [delRowFn_editedCommentId] at hne'
      exact inv.ec_live s hs hne'
    · simp only [List.mem_singleton] at h
      subst h
      intro hne'
      exfalso
      apply hne'
      simp [delNewRow]
  · intro h hpos
    rw [hnone, htomb]
    by_cases hc : h0 = h
    · subst hc
      have hpos0 : 0 < chainLen db h0 := by
        unfold chainLen
        exact List.countP_pos_iff.2 ⟨old, hmem, by simp [chainPred, hh0]⟩
      have := inv.counts h0 hpos0
      simp only [if_pos rfl]
      omega
    · simp only [if_neg hc, Nat.add_zero]
      apply inv.counts
      rw [hlen, if_neg hc, Nat.add_zero] at hpos
      exact hpos
  · intro r hr
    rw [hrows] at hr
    rcases List.mem_append.1 hr with h | h
    · obtain ⟨s, hs, rfl⟩ := List.mem_map.1 h
      rw [delRowFn_version]
      exact inv.ver_pos s hs
    · simp only [List.mem_singleton] at h
      subst h
      have hv : ({ delNewRow old hip db with tailId := some db.nextId }).version
          = jsOrOne old.version + 1 := rfl
      rw [hv]
      omega
  · intro r' hr' hv
    rw [hrows] at hr'
    rw [hrows, countP_append_single]
    rcases List.mem_append.1 hr' with h | h
    · obtain ⟨s, hs, rfl⟩ := List.mem_map.1 h
      rw [delRowFn_version] at hv
      simp only [delRowFn_headerId, delRowFn_version]
      have hcongr : (db.rows.map (delRowFn old old.id db.nextId)).countP
          (fun x => x.headerId == s.headerId && x.version == s.version - 1)
          = db.rows.countP (fun x => x.headerId == s.headerId && x.version == s.version - 1) :=
        countP_map_eq_of_congr _ _ _ (fun a _ => by
          simp [delRowFn_headerId, delRowFn_version])
      rw [hcongr]
      have := inv.ver_pred s hs hv
      omega
    · simp only [List.mem_singleton] at h
      subst h
      have hvpos := inv.ver_pos old hmem
      have hver : ({ delNewRow old hip db with tailId := some db.nextId }).version
          = old.version + 1 := by
        simp [delNewRow, jsOrOne_of_pos hvpos]
      have hhd2 : ({ delNewRow old hip db with tailId := some db.nextId }).headerId
          = old.headerId := rfl
      rw [hver, hhd2]
      have hmem' : delRowFn old old.id db.nextId old
          ∈ db.rows.map (delRowFn old old.id db.nextId) :=
        List.mem_map_of_mem _ hmem
      have hpr : ((delRowFn old old.id db.nextId old).headerId == old.headerId
          && ((delRowFn old old.id db.nextId old).version == old.version + 1 - 1))
          = true := by
        simp [delRowFn_headerId, delRowFn_version]
      have hposm : 0 < (db.rows.map (delRowFn old old.id db.nextId)).countP
          (fun x => x.headerId == old.headerId && x.version == old.version + 1 - 1) :=
        List.countP_pos_iff.2 ⟨_, hmem', hpr⟩
      omega

/-- The invariant is preserved by `updateComment`, whether it succeeds or
rolls back. -/
theorem inv_updateComment (i : Nat) (c pw hip : String) {db : DB}
    (inv : Inv db) : Inv (updateComment i c pw hip db).2 := by
  unfold updateComment
  cases hc : checkMutation db i pw with
  | error e => exact inv
  | ok old =>
    obtain ⟨hf, _, hdel, hec, _⟩ := checkMutation_ok hc
    obtain ⟨hmem, hid⟩ := findRow_mem hf
    subst hid
    exact inv_applyUpdate c hip inv hmem hdel hec

/-- The invariant is preserved by `deleteComment`, whether it succeeds or
rolls back. -/
theorem inv_deleteComment (i : Nat) (pw hip : String) {db : DB}
    (inv : Inv db) : Inv (deleteComment i pw hip db).2 := by
  unfold deleteComment
  cases hc : checkMutation db i pw with
  | error e => exact inv
  | ok old =>
    obtain ⟨hf, _, hdel, hec, _⟩ := checkMutation_ok hc
    obtain ⟨hmem, hid⟩ := findRow_mem hf
    subst hid
    exact inv_applyDelete hip inv hmem hdel hec

theorem inv_empty : Inv DB.empty := by
  refine ⟨?_, ?_, ?_, ?_, ?_, ?_, ?_, ?_⟩ <;>
    simp [DB.empty, chainLen, chainNone, chainTomb, List.Nodup]

/-- Every reachable state satisfies the invariant. -/
theorem reachable_inv {db : DB} (h : Reachable db) : Inv db := by
  induction h with
  | init => exact inv_empty
  | create db db' c pw hip ph n _ heq ih =>
    have : (createComment c pw hip ph db).2 = db' := by rw [heq]
    rw [← this]
    exact inv_createComment c pw hip ph ih
  | update db db' i c pw hip n _ heq ih =>
    have : (updateComment i c pw hip db).2 = db' := by rw [heq]
    rw [← this]
    exact inv_updateComment i c pw hip ih
  | delete db db' i pw hip n _ heq ih =>
    have : (deleteComment i pw hip db).2 = db' := by rw [heq]
    rw [← this]
    exact inv_deleteComment i pw hip ih

/-- Inversion of a successful `updateComment`. -/
theorem updateComment_ok_state {db dbU : DB} {i n : Nat} {c pw hip : String}
    (hu : updateComment i c pw hip db = (Except.ok n, dbU)) :
    ∃ old, checkMutation db i pw = Except.ok old ∧ n = db.nextId
      ∧ dbU = applyUpdate old i c hip db := by
  unfold updateComment at hu
  split at hu
  · simp at hu
  · rename_i old hcm
    injection hu with h1 h2
    injection h1 with h1
    exact ⟨old, hcm, h1.symm, h2.symm⟩

/-- Inversion of a successful `deleteComment`. -/
theorem deleteComment_ok_state {db dbD : DB} {i m : Nat} {pw hip : String}
    (hd : deleteComment i pw hip db = (Except.ok m, dbD)) :
    ∃ old, checkMutation db i pw = Except.ok old ∧ m = db.nextId
      ∧ dbD = applyDelete old i hip db := by
  unfold deleteComment at hd
  split at hd
  · simp at hd
  · rename_i old hcm
    injection hd with h1 h2
    injection h1 with h1
    exact ⟨old, hcm, h1.symm, h2.symm⟩

/-! Reachability of the concrete scenario states. -/

theorem reachable_dbCr : Reachable dbCr :=
  Reachable.create DB.empty dbCr "Hello" "pw" "ipA" none 1 Reachable.init rfl

theorem reachable_dbDel : Reachable dbDel :=
  Reachable.delete dbCr dbDel 1 "pw" "ipB" 2 reachable_dbCr rfl

theorem reachable_dbPostDeleteEdit : Reachable dbPostDeleteEdit :=
  Reachable.update dbDel dbPostDeleteEdit 1 "Hello v2" "pw" "ipC" 3
    reachable_dbDel rfl

theorem reachable_dbChainBroken : Reachable dbChainBroken :=
  Reachable.update dbPostDeleteEdit dbChainBroken 3 "Hello v3" "pw" "ipD" 4
    reachable_dbPostDeleteEdit rfl

theorem reachable_dbCU : Reachable dbCU :=
  Reachable.update dbCr dbCU 1 "Hello v2" "pw" "ipB" 2 reachable_dbCr rfl

theorem reachable_dbPair : Reachable dbPair :=
  Reachable.create dbAB dbPair "B" "p2" "ipB" none 3
    (Reachable.update dbA dbAB 1 "A2" "pA" "ipA2" 2
      (Reachable.create DB.empty dbA "A" "pA" "ipA" none 1 Reachable.init rfl) rfl) rfl

/-! ### Claim theorems -/

/-- C1 (amended): in every reachable state, for every non-empty chain,
exactly one row of the chain has `editedCommentId = null` XOR the chain
contains at least one tombstone row.  (The count of `editedCommentId = null`
rows is in fact one plus the count of tombstones, because `deleteComment`
never sets `editedCommentId` on the superseded row.) -/
theorem c1_chain_live_xor_tombstone {db : DB} (hreach : Reachable db)
    (hd : Nat) (hne : 0 < chainLen db hd) :
    Xor' (chainNone db hd = 1) (0 < chainTomb db hd) := by
  have hcnt := (reachable_inv hreach).counts hd hne
  by_cases hc : chainTomb db hd = 0
  · exact Or.inl ⟨by omega, by omega⟩
  · exact Or.inr ⟨by omega, by omega⟩

/-- C1 witness: the amended invariant evaluated on the one-chain state
`dbCr`. -/
theorem c1_chain_live_xor_tombstone_witness :
    Reachable dbCr ∧ 0 < chainLen dbCr 1
    ∧ Xor' (chainNone dbCr 1 = 1) (0 < chainTomb dbCr 1) :=
  ⟨reachable_dbCr, by decide,
    c1_chain_live_xor_tombstone reachable_dbCr 1 (by decide)⟩

/-- C1 counterexample: in the reachable state `dbChainBroken`
(create, delete, edit the superseded row, edit again), chain 1 has two rows
with `editedCommentId = null` and its single tombstone is not at the
chain's highest version, so the claimed XOR is false. -/
theorem c1_counterexample :
    Reachable dbChainBroken ∧ 0 < chainLen dbChainBroken 1
    ∧ ¬ Xor' (chainNone dbChainBroken 1 = 1)
        (tombTerminalUnique dbChainBroken 1 = true) :=
  ⟨reachable_dbChainBroken, by decide, by decide⟩

/-- C2 counterexample: after the successful `deleteComment` on the live
row 1 of `dbCr` (returning tombstone id 2), the target row's
`editedCommentId` is still NULL rather than the tombstone id 2 — the delete
path never relinks it (only the `TAIL_ID` broadcast runs), refuting the
claim at this input. -/
theorem c2_delete_missing_relink :
    deleteComment 1 "pw" "ipB" dbCr = (Except.ok 2, dbDel)
    ∧ (dbDel.findRow 1).map Row.editedCommentId = some none
    ∧ (dbDel.findRow 1).map Row.editedCommentId ≠ some (some 2)
    ∧ (dbDel.findRow 1).map Row.tailId = some (some 2) := by
  refine ⟨rfl, by decide, by decide, by decide⟩

/-- C2 (amended): for every successful delete on a live non-tombstoned row
of a reachable state, the operation updates the target's `tailId` to the new
tombstone id (through the header-group broadcast) but does not relink
`editedCommentId`: every pre-existing row, the target included, keeps its
`editedCommentId` unchanged, and only the fresh tombstone row (with NULL
`editedCommentId`) is added. -/
theorem c2_delete_no_relink_frame {db dbD : DB} {i m : Nat}
    {pw hip : String} {old : Row}
    (hreach : Reachable db) (hf : db.findRow i = some old)
    (hd : deleteComment i pw hip db = (Except.ok m, dbD)) :
    dbD.rows.map (fun r => (r.id, r.editedCommentId))
      = db.rows.map (fun r => (r.id, r.editedCommentId)) ++ [(db.nextId, none)]
    ∧ dbD.rows.map (fun r => (r.id, r.tailId))
      = db.rows.map (fun r => (r.id,
          if sqlEqOpt r.headerId old.headerId then some db.nextId else r.tailId))
        ++ [(db.nextId, some db.nextId)] := by
  have inv := reachable_inv hreach
  obtain ⟨old2, hcm2, hm, hdbD⟩ := deleteComment_ok_state hd
  have h2 := (checkMutation_ok hcm2).1
  rw [hf] at h2
  injection h2 with h2
  subst h2
  obtain ⟨hmem, hid⟩ := findRow_mem hf
  subst hid
  subst hdbD
  rw [applyDelete_rows, delNew_final]
  constructor
  · rw [List.map_append, List.map_map]
    congr 1
    apply List.map_congr_left
    intro r _
    simp only [Function.comp_apply]
    rw [delRowFn_id, delRowFn_editedCommentId]
  · rw [List.map_append, List.map_map]
    congr 1
    apply List.map_congr_left
    intro r hr
    simp only [Function.comp_apply]
    rw [delRowFn_id, delRowFn_tailId]
    by_cases hhd : sqlEqOpt r.headerId old.headerId = true
    · rw [if_pos hhd, if_pos hhd]
    · rw [if_neg hhd, if_neg hhd]
      have hfr : (r.id == db.nextId) = false := by
        have := inv.ids_lt r hr
        simp only [beq_eq_false_iff_ne, ne_eq]
        omega
      rw [hfr]
      simp

/-- C2 witness: the amended frame property evaluated at `dbPair`, deleting
the live row 2 of chain 1. -/
theorem c2_delete_no_relink_frame_witness :
    dbPairDel.rows.map (fun r => (r.id, r.editedCommentId))
      = dbPair.rows.map (fun r => (r.id, r.editedCommentId)) ++ [(dbPair.nextId, none)]
    ∧ dbPairDel.rows.map (fun r => (r.id, r.tailId))
      = dbPair.rows.map (fun r => (r.id,
          if sqlEqOpt r.headerId rowPair2.headerId then some dbPair.nextId else r.tailId))
        ++ [(dbPair.nextId, some dbPair.nextId)] :=
  c2_delete_no_relink_frame reachable_dbPair
    (show dbPair.findRow 2 = some rowPair2 from by decide)
    (show deleteComment 2 "pA" "ipD" dbPair = (Except.ok 4, dbPairDel) from rfl)

/-- C3 counterexample: `dbDel` is a reachable state whose chain 1 is
tombstoned, yet both `updateComment` and `deleteComment` targeting the
superseded row 1 of that chain still succeed (returning new row 3), because
row 1 kept `editedCommentId = null` — refuting "the TOMBSTONED state is
terminal" at this input. -/
theorem c3_tombstoned_chain_still_editable :
    Reachable dbDel
    ∧ 0 < chainTomb dbDel 1
    ∧ (updateComment 1 "Hello v2" "pw" "ipC" dbDel).1 = Except.ok 3
    ∧ (deleteComment 1 "pw" "ipC" dbDel).1 = Except.ok 3 := by
  refine ⟨reachable_dbDel, by decide, rfl, rfl⟩

/-- The shared precondition sequence rejects a tombstone row with the
already-deleted InvalidState error. -/
theorem checkMutation_tombstone {db : DB} {i : Nat} {r : Row} (pw : String)
    (hf : db.findRow i = some r) (hp : r.hashedPassword ≠ "")
    (hd : r.isDeleted ≠ 0) :
    checkMutation db i pw = Except.error DbError.alreadyDeleted := by
  have h1 : (r.hashedPassword == "") = false := by simpa using hp
  have h2 : (r.isDeleted != 0) = true := by simpa using hd
  unfold checkMutation
  rw [hf]
  simp [h1, h2]

/-- C3 (amended): once a chain is tombstoned, the tombstone row itself can
never be updated or deleted — in any reachable state both operations on an
`isDeleted = 1` row fail with the already-deleted InvalidState error and
leave the store unchanged — but the state is not terminal for the whole
chain: rows that kept `editedCommentId = null` (notably the superseded
previous live row) can still be mutated, since delete never relinks
`editedCommentId`. -/
theorem c3_tombstone_row_immutable {db : DB} {i : Nat} {r : Row}
    (hreach : Reachable db) (hf : db.findRow i = some r)
    (htomb : r.isDeleted ≠ 0) (c pw hip pw2 hip2 : String) :
    updateComment i c pw hip db = (Except.error DbError.alreadyDeleted, db)
    ∧ deleteComment i pw2 hip2 db = (Except.error DbError.alreadyDeleted, db) := by
  have inv := reachable_inv hreach
  obtain ⟨hmem, _⟩ := findRow_mem hf
  have hp := inv.hp_ne r hmem
  constructor
  · unfold updateComment
    rw [checkMutation_tombstone pw hf hp htomb]
  · unfold deleteComment
    rw [checkMutation_tombstone pw2 hf hp htomb]

/-- C3 witness: both mutations on the tombstone row 2 of `dbDel` fail with
the already-deleted error and leave the state untouched. -/
theorem c3_tombstone_row_immutable_witness :
    updateComment 2 "x" "pw" "ipX" dbDel
      = (Except.error DbError.alreadyDeleted, dbDel)
    ∧ deleteComment 2 "pw" "ipY" dbDel
      = (Except.error DbError.alreadyDeleted, dbDel) :=
  c3_tombstone_row_immutable reachable_dbDel
    (show dbDel.findRow 2 = some rowDel2 from by decide)
    (by decide) "x" "pw" "ipX" "pw" "ipY"

/-- C4 counterexample: version numbers do repeat in a reachable state —
after create, delete, and an update of the superseded row, chain 1 carries
versions `[1, 2, 2]` (the tombstone and the new edit both take version 2),
refuting "no repeats". -/
theorem c4_duplicate_versions :
    Reachable dbPostDeleteEdit
    ∧ (dbPostDeleteEdit.rows.filter (chainPred 1)).map Row.version = [1, 2, 2] :=
  ⟨reachable_dbPostDeleteEdit, by decide⟩

/-- C4 (amended): in every reachable state the version numbers of each chain
form a gap-free range starting at 1 — no chain row has version 0, and
whenever some row of a chain has version `v > 1`, some row of the same chain
has version `v - 1` — but versions may repeat once a tombstoned chain is
mutated again, so the multiset is `1..N` with possible duplicates rather
than exactly `1..N`. -/
theorem c4_versions_gapfree {db : DB} (hreach : Reachable db) :
    (∀ hd, chainVer db hd 0 = 0)
    ∧ (∀ hd v, 1 < v → 0 < chainVer db hd v → 0 < chainVer db hd (v - 1)) := by
  have inv := reachable_inv hreach
  constructor
  · intro hd
    unfold chainVer
    rw [List.countP_eq_zero]
    intro r hr
    have := inv.ver_pos r hr
    simp only [Bool.and_eq_true, beq_iff_eq, not_and]
    intro _
    omega
  · intro hd v hv hpos
    unfold chainVer at hpos ⊢
    rw [List.countP_pos_iff] at hpos ⊢
    obtain ⟨r, hr, hpr⟩ := hpos
    simp only [Bool.and_eq_true, beq_iff_eq] at hpr
    obtain ⟨hcp, hver⟩ := hpr
    subst hver
    have hpred := inv.ver_pred r hr (by omega)
    rw [List.countP_pos_iff] at hpred
    obtain ⟨r', hr', hpr'⟩ := hpred
    simp only [Bool.and_eq_true, beq_iff_eq] at hpr'
    refine ⟨r', hr', ?_⟩
    simp only [chainPred, Bool.and_eq_true, beq_iff_eq]
    constructor
    · rw [hpr'.1]
      simpa [chainPred] using hcp
    · exact hpr'.2

/-- C4 witness: the gap-free property applied to chain 1 of the
duplicate-version state: version 2 is present, so version 1 is present. -/
theorem c4_versions_gapfree_witness :
    chainVer dbPostDeleteEdit 1 0 = 0 ∧ 0 < chainVer dbPostDeleteEdit 1 1 :=
  ⟨(c4_versions_gapfree reachable_dbPostDeleteEdit).1 1,
   (c4_versions_gapfree reachable_dbPostDeleteEdit).2 1 2 (by decide) (by decide)⟩

/-- C5: in any reachable state, `updateComment` on a row whose
`editedCommentId` is non-NULL always fails with the InvalidState error
`'이미 수정된 댓글은 다시 수정할 수 없습니다'` (already superseded), and the returned
state is the unchanged input state (the transaction rolls back before any
mutating statement has run). -/
theorem c5_update_superseded_fails {db : DB} {i : Nat} {r : Row}
    (hreach : Reachable db) (hf : db.findRow i = some r)
    (hsup : r.editedCommentId ≠ none) (c pw hip : String) :
    updateComment i c pw hip db = (Except.error DbError.alreadyEdited, db) := by
  have inv := reachable_inv hreach
  obtain ⟨hmem, _⟩ := findRow_mem hf
  have hp := inv.hp_ne r hmem
  have hd := inv.ec_live r hmem hsup
  unfold updateComment
  rw [checkMutation_superseded pw hf hp hd hsup]

/-- C5 witness: updating the superseded row 1 of `dbCU` fails with the
already-superseded error and leaves the state untouched. -/
theorem c5_update_superseded_fails_witness :
    updateComment 1 "again" "pw" "ipZ" dbCU
      = (Except.error DbError.alreadyEdited, dbCU) :=
  c5_update_superseded_fails reachable_dbCU (by decide)
    (r := rowCU1) (by decide) "again" "pw" "ipZ"

/-- C6 counterexample: with target row 2 of `dbPair` (chain 1 has rows 1
and 2; row 3 is an unrelated chain), the final `TAIL_ID` broadcasts of
`updateComment` and `deleteComment` target exactly the same rows `[1, 2]`,
and the two operations write identical `(id, tailId)` tables — refuting the
claim that the two scopes are not the same. -/
theorem c6_counterexample :
    updateTailBroadcastScope dbPair (some 1) = deleteTailBroadcastScope dbPair (some 1)
    ∧ updateTailBroadcastScope dbPair (some 1) = [1, 2]
    ∧ dbPairUpd.rows.map (fun r => (r.id, r.tailId))
        = dbPairDel.rows.map (fun r => (r.id, r.tailId)) := by
  refine ⟨rfl, by decide, by decide⟩

/-- C6 (amended): the final `TAIL_ID` broadcasts of update and delete have
identical scope — both run `WHERE HEADER_ID = :headerId` with the target's
header id — so from any reachable state a successful update and a successful
delete of the same target produce identical `(id, tailId)` tables; the two
paths differ only in the columns written (update also overwrites
`UPDATED_AT`). -/
theorem c6_broadcast_scope_eq {db dbU dbD : DB} {i n m : Nat}
    {c pw pw2 hip hip2 : String}
    (hreach : Reachable db)
    (hu : updateComment i c pw hip db = (Except.ok n, dbU))
    (hd : deleteComment i pw2 hip2 db = (Except.ok m, dbD)) :
    (∀ hId, updateTailBroadcastScope db hId = deleteTailBroadcastScope db hId)
    ∧ dbU.rows.map (fun r => (r.id, r.tailId))
        = dbD.rows.map (fun r => (r.id, r.tailId)) := by
  refine ⟨fun _ => rfl, ?_⟩
  have inv := reachable_inv hreach
  obtain ⟨old, hcm, hn, hdbU⟩ := updateComment_ok_state hu
  obtain ⟨old2, hcm2, hm, hdbD⟩ := deleteComment_ok_state hd
  have h1 := (checkMutation_ok hcm).1
  have h2 := (checkMutation_ok hcm2).1
  rw [h1] at h2
  injection h2 with h2
  subst h2
  obtain ⟨hmem, hid⟩ := findRow_mem h1
  subst hid
  obtain ⟨h0, hh0, _⟩ := inv.header_some old hmem
  have hne : old.id ≠ db.nextId := Nat.ne_of_lt (inv.ids_lt old hmem)
  subst hdbU hdbD
  rw [applyUpdate_rows, updNew_final _ _ _ _ hne, applyDelete_rows, delNew_final]
  rw [List.map_append, List.map_append, List.map_map, List.map_map]
  congr 1
  · apply List.map_congr_left
    intro r hr
    simp only [Function.comp_apply]
    rw [updRowFn_id, delRowFn_id, updRowFn_tailId, delRowFn_tailId]
    by_cases hhd : sqlEqOpt r.headerId old.headerId = true
    · rw [if_pos hhd, if_pos hhd]
    · rw [if_neg hhd, if_neg hhd]
      by_cases hidq : (r.id == old.id) = true
      · exfalso
        have hre : r = old :=
          List.inj_on_of_nodup_map inv.ids_nodup hr hmem (by simpa using hidq)
        subst hre
        exact hhd (by simp [sqlEqOpt, hh0])
      · rw [if_neg hidq]

/-- C6 witness: the amended statement evaluated at `dbPair`, target row 2. -/
theorem c6_broadcast_scope_eq_witness :
    (∀ hId, updateTailBroadcastScope dbPair hId = deleteTailBroadcastScope dbPair hId)
    ∧ dbPairUpd.rows.map (fun r => (r.id, r.tailId))
        = dbPairDel.rows.map (fun r => (r.id, r.tailId)) :=
  c6_broadcast_scope_eq reachable_dbPair
    (show updateComment 2 "A3" "pA" "ipU" dbPair = (Except.ok 4, dbPairUpd) from rfl)
    (show deleteComment 2 "pA" "ipD" dbPair = (Except.ok 4, dbPairDel) from rfl)

/-- `getCommentHistory` on an id that resolves to a row returns the
`IS_DELETED = 0` rows of the resolved header, sorted by version. -/
theorem getCommentHistory_found {db : DB} {i : Nat} {r : Row}
    (hf : db.findRow i = some r) :
    getCommentHistory i db = Except.ok (List.insertionSort versionLe
      (db.rows.filter (fun x =>
        sqlEqOpt x.headerId r.headerId && x.isDeleted == 0))) := by
  unfold getCommentHistory
  rw [hf]

/-- C7: `getCommentHistory` (a) fails with NotFound when the id matches no
row; (b) on success returns a version-ascending ordering of exactly the rows
that share the resolved row's `headerId` and have `isDeleted = 0`; and (c)
any two ids resolving to the same `headerId` yield the same list. -/
theorem c7_getHistory_spec :
    (∀ (db : DB) (i : Nat), db.findRow i = none →
        getCommentHistory i db = Except.error DbError.notFound)
    ∧ (∀ (db : DB) (i : Nat) (r : Row) (l : List Row), db.findRow i = some r →
        getCommentHistory i db = Except.ok l →
          l.Sorted versionLe
          ∧ l.Perm (db.rows.filter (fun x =>
              sqlEqOpt x.headerId r.headerId && x.isDeleted == 0)))
    ∧ (∀ (db : DB) (i1 i2 : Nat) (r1 r2 : Row), db.findRow i1 = some r1 →
        db.findRow i2 = some r2 → r1.headerId = r2.headerId →
          getCommentHistory i1 db = getCommentHistory i2 db) := by
  refine ⟨?_, ?_, ?_⟩
  · intro db i h
    unfold getCommentHistory
    rw [h]
  · intro db i r l hf hl
    rw [getCommentHistory_found hf] at hl
    injection hl with hl
    subst hl
    exact ⟨List.sorted_insertionSort versionLe _, List.perm_insertionSort versionLe _⟩
  · intro db i1 i2 r1 r2 hf1 hf2 hhd
    rw [getCommentHistory_found hf1, getCommentHistory_found hf2, hhd]

/-- C7 witness: the three parts evaluated on concrete stores (`dbCr` with a
missing id; `dbCU` chain 1 queried through both of its row ids). -/
theorem c7_getHistory_spec_witness :
    (getCommentHistory 99 dbCr = Except.error DbError.notFound)
    ∧ ([rowCU1, rowCU2].Sorted versionLe
       ∧ [rowCU1, rowCU2].Perm (dbCU.rows.filter (fun x =>
           sqlEqOpt x.headerId rowCU1.headerId && x.isDeleted == 0)))
    ∧ getCommentHistory 1 dbCU = getCommentHistory 2 dbCU :=
  ⟨c7_getHistory_spec.1 dbCr 99 (by decide),
   c7_getHistory_spec.2.1 dbCU 1 rowCU1 [rowCU1, rowCU2] (by decide)
     (show getCommentHistory 1 dbCU = Except.ok [rowCU1, rowCU2] from rfl),
   c7_getHistory_spec.2.2 dbCU 1 2 rowCU1 rowCU2 (by decide) (by decide) (by decide)⟩

/-- C9: `getComments` counts only root-chain tails
(`PARENT_HEADER_ID IS NULL AND ID = TAIL_ID`) as `totalCount`, and on the
concrete store `db9` with 5 root chains (ids 1, 2, 3, 5, 6; replies 4 and 7
attached to chains 1 and 2), page 1 with limit 2 returns the two
most-recently-created root chains (6 then 5), each with an empty reply list,
and `totalCount = 5` regardless of the replies. -/
theorem c9_pagination :
    (∀ (page limit : Nat) (db : DB),
        (getComments page limit db).totalCount = db.rows.countP rootTail)
    ∧ (getComments 1 2 db9).totalCount = 5
    ∧ (getComments 1 2 db9).comments.map (fun pc => (pc.1.id, pc.2.map Row.id))
        = [(6, []), (5, [])] := by
  refine ⟨fun _ _ _ => rfl, by decide, by decide⟩

/-- C8: for any non-empty contents `c`, `c2` and password `p`, `create(c, p,
null)` on the empty store returns id 1; `update(1, c2, p)` returns id 2; and
`getHistory(1)` then returns exactly two entries with contents `[c, c2]` in
that order. -/
theorem c8_round_trip (c c2 p hipA hipB : String)
    (hc : c ≠ "") (hc2 : c2 ≠ "") (hp : p ≠ "") :
    (createComment c p hipA none DB.empty).1 = Except.ok 1
    ∧ (updateComment 1 c2 p hipB (c8db1 c p hipA)).1 = Except.ok 2
    ∧ (getCommentHistory 1 (updateComment 1 c2 p hipB (c8db1 c p hipA)).2).map
        (fun l => l.map Row.content) = Except.ok [some c, some c2] := by
  have hfr : (c8db1 c p hipA).findRow 1 = some (c8row1 c p hipA) := rfl
  have hck : checkMutation (c8db1 c p hipA) 1 p = Except.ok (c8row1 c p hipA) := by
    unfold checkMutation
    rw [hfr]
    simp [c8row1, hashPassword_beq_empty, comparePassword_self]
  have hupd : updateComment 1 c2 p hipB (c8db1 c p hipA)
      = (Except.ok 2, applyUpdate (c8row1 c p hipA) 1 c2 hipB (c8db1 c p hipA)) := by
    unfold updateComment
    rw [hck]
    rfl
  refine ⟨rfl, ?_, ?_⟩
  · rw [hupd]
  · rw [hupd]
    rfl

/-- C8 witness: the round trip evaluated at contents `"one"`, `"two"` and
password `"pw"`. -/
theorem c8_round_trip_witness :
    ("one" ≠ "" ∧ "two" ≠ "" ∧ "pw" ≠ "")
    ∧ ((createComment "one" "pw" "ipA" none DB.empty).1 = Except.ok 1
       ∧ (updateComment 1 "two" "pw" "ipB" (c8db1 "one" "pw" "ipA")).1 = Except.ok 2
       ∧ (getCommentHistory 1
            (updateComment 1 "two" "pw" "ipB" (c8db1 "one" "pw" "ipA")).2).map
           (fun l => l.map Row.content) = Except.ok [some "one", some "two"]) :=
  ⟨⟨by decide, by decide, by decide⟩,
   c8_round_trip "one" "two" "pw" "ipA" "ipB" (by decide) (by decide) (by decide)⟩

/-- C10: from any reachable state, a successful `updateComment` rewrites
`updatedAt` (to the operation's timestamp) on every pre-existing row sharing
the target's `headerId` — historical versions included — while a successful
`deleteComment` of the same target leaves the `updatedAt` of every
pre-existing row unchanged; both append their new row stamped with the
operation's timestamp. -/
theorem c10_updatedAt_frame {db dbU dbD : DB} {i n m : Nat}
    {c pw pw2 hip hip2 : String} {old : Row}
    (hreach : Reachable db) (hf : db.findRow i = some old)
    (hu : updateComment i c pw hip db = (Except.ok n, dbU))
    (hd : deleteComment i pw2 hip2 db = (Except.ok m, dbD)) :
    dbU.rows.map (fun r => (r.id, r.updatedAt))
      = db.rows.map (fun r => (r.id,
          if sqlEqOpt r.headerId old.headerId then db.clock else r.updatedAt))
        ++ [(db.nextId, db.clock)]
    ∧ dbD.rows.map (fun r => (r.id, r.updatedAt))
      = db.rows.map (fun r => (r.id, r.updatedAt)) ++ [(db.nextId, db.clock)] := by
  have inv := reachable_inv hreach
  obtain ⟨old1, hcm, hn, hdbU⟩ := updateComment_ok_state hu
  obtain ⟨old2, hcm2, hm, hdbD⟩ := deleteComment_ok_state hd
  have h1 := (checkMutation_ok hcm).1
  have h2 := (checkMutation_ok hcm2).1
  rw [hf] at h1 h2
  injection h1 with h1
  injection h2 with h2
  subst h1
  subst h2
  obtain ⟨hmem, hid⟩ := findRow_mem hf
  subst hid
  obtain ⟨h0, hh0, _⟩ := inv.header_some old hmem
  have hne : old.id ≠ db.nextId := Nat.ne_of_lt (inv.ids_lt old hmem)
  subst hdbU hdbD
  constructor
  · rw [applyUpdate_rows, updNew_final _ _ _ _ hne]
    rw [List.map_append, List.map_map]
    congr 1
    apply List.map_congr_left
    intro r hr
    simp only [Function.comp_apply]
    rw [updRowFn_id, updRowFn_updatedAt]
    by_cases hhd : sqlEqOpt r.headerId old.headerId = true
    · rw [if_pos hhd, if_pos hhd]
    · rw [if_neg hhd, if_neg hhd]
      by_cases hidq : (r.id == old.id) = true
      · exfalso
        have hre : r = old :=
          List.inj_on_of_nodup_map inv.ids_nodup hr hmem (by simpa using hidq)
        subst hre
        exact hhd (by simp [sqlEqOpt, hh0])
      · rw [if_neg hidq]
  · rw [applyDelete_rows, delNew_final]
    rw [List.map_append, List.map_map]
    congr 1
    apply List.map_congr_left
    intro r _
    simp only [Function.comp_apply]
    rw [delRowFn_id, delRowFn_updatedAt]

/-- C10 witness: the frame property evaluated at `dbPair`, target row 2. -/
theorem c10_updatedAt_frame_witness :
    dbPairUpd.rows.map (fun r => (r.id, r.updatedAt))
      = dbPair.rows.map (fun r => (r.id,
          if sqlEqOpt r.headerId rowPair2.headerId then dbPair.clock else r.updatedAt))
        ++ [(dbPair.nextId, dbPair.clock)]
    ∧ dbPairDel.rows.map (fun r => (r.id, r.updatedAt))
      = dbPair.rows.map (fun r => (r.id, r.updatedAt)) ++ [(dbPair.nextId, dbPair.clock)] :=
  c10_updatedAt_frame reachable_dbPair
    (show dbPair.findRow 2 = some rowPair2 from by decide)
    (show updateComment 2 "A3" "pA" "ipU" dbPair = (Except.ok 4, dbPairUpd) from rfl)
    (show deleteComment 2 "pA" "ipD" dbPair = (Except.ok 4, dbPairDel) from rfl)

end JaceComments
